import Mathlib

/-!
Verification of the BrowserLens observation pipeline.

Shallow embedding of the core data model and operations of the
`browserlens` package: the representation router (`router/strategies.py`),
the stable reference manager (`formatter/ref_manager.py`), the
accessibility extractors (`extractors/a11y.py`, `extractors/_cdp.py`),
the tree differ (`differ/tree_diff.py`), the semantic noise filter
(`differ/semantic_filter.py`), and the token budget
(`formatter/token_budget.py`).  Python strings are modelled as `String`,
floats appearing only in ordered comparisons as `ℚ`, Python dicts as
insertion-ordered association lists, and Python `None` as `Option`.
-/

set_option maxRecDepth 4096

/-- `RepresentationType` enum from `core/types.py`. -/
inductive RepresentationType where
  | A11Y_TREE
  | DISTILLED_DOM
  | VISION
  | HYBRID
deriving DecidableEq, Repr

/-- A Python attribute value appearing among the compared semantic
properties of a `StateNode` (`str`, tri-state `bool | None`, or `bool`). -/
inductive PropVal where
  | s (v : String)
  | tri (v : Option Bool)
  | b (v : Bool)
deriving DecidableEq, Repr

/-- `StateNode` dataclass from `core/types.py` (the `attributes` free-form
dict is carried by the Python class but never read by any of the modelled
operations, so it is not part of the embedding). -/
inductive StateNode where
  | mk (ref role name value : String)
       (checked expanded : Option Bool)
       (disabled focused : Bool)
       (live : String)
       (children : List StateNode)
deriving Repr

def StateNode.ref : StateNode → String
  | .mk r _ _ _ _ _ _ _ _ _ => r

def StateNode.role : StateNode → String
  | .mk _ r _ _ _ _ _ _ _ _ => r

def StateNode.name : StateNode → String
  | .mk _ _ n _ _ _ _ _ _ _ => n

def StateNode.value : StateNode → String
  | .mk _ _ _ v _ _ _ _ _ _ => v

def StateNode.checked : StateNode → Option Bool
  | .mk _ _ _ _ c _ _ _ _ _ => c

def StateNode.expanded : StateNode → Option Bool
  | .mk _ _ _ _ _ e _ _ _ _ => e

def StateNode.disabled : StateNode → Bool
  | .mk _ _ _ _ _ _ d _ _ _ => d

def StateNode.focused : StateNode → Bool
  | .mk _ _ _ _ _ _ _ f _ _ => f

def StateNode.live : StateNode → String
  | .mk _ _ _ _ _ _ _ _ l _ => l

def StateNode.children : StateNode → List StateNode
  | .mk _ _ _ _ _ _ _ _ _ c => c

mutual

def StateNode.beq : StateNode → StateNode → Bool
  | .mk r₁ o₁ n₁ v₁ c₁ e₁ d₁ f₁ l₁ ch₁, .mk r₂ o₂ n₂ v₂ c₂ e₂ d₂ f₂ l₂ ch₂ =>
    r₁ == r₂ && o₁ == o₂ && n₁ == n₂ && v₁ == v₂ && c₁ == c₂ && e₁ == e₂ &&
    d₁ == d₂ && f₁ == f₂ && l₁ == l₂ && StateNode.beqList ch₁ ch₂

def StateNode.beqList : List StateNode → List StateNode → Bool
  | [], [] => true
  | a :: as, b :: bs => StateNode.beq a b && StateNode.beqList as bs
  | _, _ => false

end

mutual

theorem StateNode.beq_iff : ∀ a b : StateNode, StateNode.beq a b = true ↔ a = b
  | .mk r₁ o₁ n₁ v₁ c₁ e₁ d₁ f₁ l₁ ch₁, .mk r₂ o₂ n₂ v₂ c₂ e₂ d₂ f₂ l₂ ch₂ => by
    simp only [StateNode.beq, Bool.and_eq_true, beq_iff_eq, StateNode.mk.injEq]
    rw [StateNode.beqList_iff ch₁ ch₂]
    tauto

theorem StateNode.beqList_iff : ∀ as bs : List StateNode,
    StateNode.beqList as bs = true ↔ as = bs
  | [], [] => by simp [StateNode.beqList]
  | [], _ :: _ => by simp [StateNode.beqList]
  | _ :: _, [] => by simp [StateNode.beqList]
  | a :: as, b :: bs => by
    simp only [StateNode.beqList, Bool.and_eq_true, List.cons.injEq]
    rw [StateNode.beq_iff a b, StateNode.beqList_iff as bs]

end

instance : DecidableEq StateNode := fun a b =>
  decidable_of_iff (StateNode.beq a b = true) (StateNode.beq_iff a b)

/-- `NodeChange` dataclass from `core/types.py`; `changed_props` is the
insertion-ordered dict `prop -> (old, new)`. -/
structure NodeChange where
  ref : String
  role : String
  name : String
  changed_props : List (String × PropVal × PropVal)
deriving DecidableEq, Repr

/-- `Delta` dataclass from `core/types.py`. -/
structure Delta where
  step : Nat
  added : List StateNode := []
  removed : List StateNode := []
  changed : List NodeChange := []
  unchanged_count : Nat := 0
  unchanged_summary : String := ""
  is_full_state : Bool := false
  representation_type : RepresentationType := .A11Y_TREE
deriving DecidableEq, Repr

/-- `PageSignals` dataclass from `core/types.py`; the float fields only
ever take part in ordered comparisons, so they are embedded as `ℚ`. -/
structure PageSignals where
  url : String
  has_canvas : Bool := false
  has_webgl : Bool := false
  a11y_coverage : ℚ := 0
  dom_node_count : Nat := 0
  dom_max_depth : Nat := 0
  dom_avg_children : ℚ := 0
  dynamic_content_share : ℚ := 0
  page_type : String := "unknown"
deriving DecidableEq, Repr

/-- `RepresentationStrategy.select` from `router/strategies.py`:
the ordered rule cascade, translated line by line. -/
def strategySelect (signals : PageSignals) : RepresentationType :=
  if (signals.has_canvas ∨ signals.has_webgl) ∧ signals.a11y_coverage < 1/2 then
    .HYBRID
  else if signals.a11y_coverage ≥ 4/5 then
    .A11Y_TREE
  else if signals.dom_node_count < 2000 ∧ signals.a11y_coverage ≥ 1/2 then
    .DISTILLED_DOM
  else if signals.a11y_coverage ≥ 3/10 then
    .HYBRID
  else
    .VISION

/-- The cascade exactly as the specification words it (rules 1–5 of
§4.4), with rule 1 parsed the way the spec's own examples force:
`(has_canvas OR has_webgl) AND a11y_coverage < 0.5`.  Used only to be
compared against `strategySelect`, which is translated from the code. -/
def specCascade (signals : PageSignals) : RepresentationType :=
  if (signals.has_canvas ∨ signals.has_webgl) ∧ signals.a11y_coverage < 1/2 then
    .HYBRID
  else if signals.a11y_coverage ≥ 4/5 then
    .A11Y_TREE
  else if signals.dom_node_count < 2000 ∧ signals.a11y_coverage ≥ 1/2 then
    .DISTILLED_DOM
  else if signals.a11y_coverage ≥ 3/10 then
    .HYBRID
  else
    .VISION

/-- Claim C4: `RepresentationStrategy.select` implements the spec's ordered
cascade; in particular `has_canvas=true, a11y_coverage=0.3` gives HYBRID,
`has_canvas=true, a11y_coverage=0.9` gives A11Y_TREE, and no canvas/WebGL
with `a11y_coverage=0.1` gives VISION. -/
theorem strategySelect_matches_spec_cascade :
    (∀ signals : PageSignals, strategySelect signals = specCascade signals) ∧
    strategySelect { url := "", has_canvas := true, a11y_coverage := 3/10 } =
      .HYBRID ∧
    strategySelect { url := "", has_canvas := true, a11y_coverage := 9/10 } =
      .A11Y_TREE ∧
    strategySelect { url := "", a11y_coverage := 1/10 } = .VISION := by
  refine ⟨fun signals => rfl, ?_, ?_, ?_⟩ <;> norm_num [strategySelect]

/-!
## RefManager (`formatter/ref_manager.py`)

The two Python dicts are embedded as insertion-ordered association
lists; `get_or_create` never overwrites an existing key, so plain
appending reproduces the dict behaviour exactly.
-/

/-- A node fingerprint `(role, name, parent_role)`. -/
abbrev Fingerprint := String × String × String

/-- `RefManager` state: the counter and the `fingerprint -> ref` /
`ref -> fingerprint` maps. -/
structure RefManager where
  counter : Nat
  fp_to_ref : List (Fingerprint × String)
  ref_to_fp : List (String × Fingerprint)
deriving DecidableEq, Repr

/-- A freshly constructed `RefManager` (`__init__` / `reset`). -/
def RefManager.init : RefManager := ⟨0, [], []⟩

/-- First-match association-list lookup (Python `dict[...]` / `in`). -/
def assocFind {α : Type} [DecidableEq α] {β : Type} :
    List (α × β) → α → Option β
  | [], _ => none
  | (k, v) :: t, a => if k = a then some v else assocFind t a

/-- `RefManager.get_or_create`: return the existing ref for a seen
fingerprint, else allocate `@e<counter+1>` and record it. -/
def getOrCreate (rm : RefManager) (fp : Fingerprint) : String × RefManager :=
  match assocFind rm.fp_to_ref fp with
  | some r => (r, rm)
  | none =>
      let c := rm.counter + 1
      let r := "@e" ++ toString c
      (r, ⟨c, rm.fp_to_ref ++ [(fp, r)], rm.ref_to_fp ++ [(r, fp)]⟩)

/-- `RefManager.lookup`. -/
def refLookup (rm : RefManager) (ref : String) : Option Fingerprint :=
  assocFind rm.ref_to_fp ref

/-- The manager obtained by a sequence of `get_or_create` calls on a
fresh `RefManager`. -/
def runCalls (fps : List Fingerprint) : RefManager :=
  fps.foldl (fun rm fp => (getOrCreate rm fp).2) RefManager.init

/-!
## A11y extractor (`extractors/a11y.py`)

The raw Playwright snapshot node is a JSON-ish dict; `raw.get(k, d)`
becomes `Option.getD`.  A key that is absent, or present with the Python
value `None`, is `none`.
-/

/-- A raw accessibility snapshot node as consumed by
`A11yExtractor._convert_node`. -/
inductive RawA11y where
  | mk (role name value : Option String)
       (checked expanded : Option Bool)
       (disabled focused : Option Bool)
       (live : Option String)
       (children : List RawA11y)
deriving Repr

def RawA11y.role : RawA11y → Option String
  | .mk r _ _ _ _ _ _ _ _ => r

def RawA11y.name : RawA11y → Option String
  | .mk _ n _ _ _ _ _ _ _ => n

def RawA11y.value : RawA11y → Option String
  | .mk _ _ v _ _ _ _ _ _ => v

def RawA11y.checked : RawA11y → Option Bool
  | .mk _ _ _ c _ _ _ _ _ => c

def RawA11y.expanded : RawA11y → Option Bool
  | .mk _ _ _ _ e _ _ _ _ => e

def RawA11y.disabled : RawA11y → Option Bool
  | .mk _ _ _ _ _ d _ _ _ => d

def RawA11y.focused : RawA11y → Option Bool
  | .mk _ _ _ _ _ _ f _ _ => f

def RawA11y.live : RawA11y → Option String
  | .mk _ _ _ _ _ _ _ l _ => l

def RawA11y.children : RawA11y → List RawA11y
  | .mk _ _ _ _ _ _ _ _ c => c

/-- The empty snapshot dict `{}` (every key absent). -/
def RawA11y.empty : RawA11y := .mk none none none none none none none none []

mutual

/-- `A11yExtractor._convert_node`: stamp a ref via the shared `RefManager`
and convert the raw node, threading the manager through the children. -/
def a11yConvert : RawA11y → String → RefManager → StateNode × RefManager
  | .mk rawRole rawName rawValue rawChecked rawExpanded rawDisabled rawFocused
      rawLive rawChildren, parentRole, rm =>
    let role := rawRole.getD "generic"
    let name := rawName.getD ""
    let (ref, rm₁) := getOrCreate rm (role, name, parentRole)
    let (children, rm₂) := a11yConvertList rawChildren role rm₁
    (.mk ref role name (rawValue.getD "") rawChecked rawExpanded
       (rawDisabled.getD false) (rawFocused.getD false) (rawLive.getD "")
       children, rm₂)

/-- The `for child_raw in raw.get("children", [])` loop of
`A11yExtractor._convert_node`. -/
def a11yConvertList (l : List RawA11y) (parentRole : String)
    (rm : RefManager) : List StateNode × RefManager :=
  match l with
  | [] => ([], rm)
  | c :: cs =>
      let (n, rm₁) := a11yConvert c parentRole rm
      let (ns, rm₂) := a11yConvertList cs parentRole rm₁
      (n :: ns, rm₂)

end

/-- `A11yExtractor.extract`'s root construction:
`self._convert_node(snapshot or {})`, where the snapshot primitive may
return nothing (`None`). -/
def a11yExtractRoot (snapshot : Option RawA11y) (rm : RefManager) :
    StateNode × RefManager :=
  a11yConvert (snapshot.getD RawA11y.empty) "" rm

/-!
## CDP accessibility extraction (`extractors/_cdp.py`)

`Accessibility.getFullAXTree` returns a flat list of nodes wired by
`nodeId`/`parentId`/`childIds`.  The recursion of `_convert_node` /
`_collect_unignored` follows those id links, so it is embedded with a
fuel parameter; on the acyclic inputs the browser produces, a fuel of
`nodes.length + 1` is never exhausted (Python itself would not terminate
on a cyclic input).
-/

/-- A concrete CDP `AXValue` payload (`bool` or `str` in practice). -/
inductive PyLit where
  | str (s : String)
  | boolean (b : Bool)
deriving DecidableEq, Repr

/-- A raw CDP AX node as consumed by `_convert_node`.  The `role`, `name`
and `value` fields hold the inner `value` of the CDP envelope (`none`
when the key is absent or the envelope holds `None`); `properties` keeps
the CDP properties array in order. -/
structure CdpRaw where
  nodeId : String
  parentId : Option String := none
  ignored : Bool := false
  role : Option String := none
  name : Option String := none
  value : Option String := none
  properties : List (String × Option PyLit) := []
  childIds : List String := []
deriving Repr

/-- `_get_props(...)[name]` followed by `props.get(name)`: the dict
comprehension keeps the last entry for a repeated name, and an entry
whose `AXValue` holds `None` is indistinguishable from an absent key. -/
def cdpProp (props : List (String × Option PyLit)) (propName : String) :
    Option PyLit :=
  match props.foldl (fun acc p => if p.1 = propName then some p.2 else acc)
      none with
  | some (some v) => some v
  | _ => none

/-- The `by_id` dict `{n["nodeId"]: n for n in nodes}` (last entry wins). -/
def cdpById (nodes : List CdpRaw) (i : String) : Option CdpRaw :=
  nodes.foldl (fun acc n => if n.nodeId = i then some n else acc) none

/-- Internal Chrome role names → normalised role strings
(`_INTERNAL_ROLE_MAP`). -/
def internalRoleMap (r : String) : String :=
  if r = "RootWebArea" then "document"
  else if r = "StaticText" then "text"
  else if r = "LineBreak" then "text"
  else if r = "InlineTextBox" then "text"
  else if r = "GenericContainer" then "generic"
  else if r = "LayoutTable" then "table"
  else if r = "LayoutTableRow" then "row"
  else if r = "LayoutTableCell" then "cell"
  else r

/-- `_STRUCTURAL_ROLES`. -/
def structuralRoles : List String :=
  ["generic", "none", "presentation", "text", "document"]

/-- `_is_interesting`: prune structural wrappers with no name and no
children. -/
def isInteresting (node : StateNode) : Bool :=
  if node.role ∉ structuralRoles then true
  else if node.name ≠ "" then true
  else if node.children ≠ [] then true
  else false

/-- The `checked` / `expanded` coercion of `_convert_node`:
`(raw == "true") if isinstance(raw, str) else bool(raw)`, `None` when the
property is absent. -/
def cdpTriState (v : Option PyLit) : Option Bool :=
  match v with
  | none => none
  | some (.str s) => some (s = "true")
  | some (.boolean b) => some b

/-- The `disabled` / `focused` coercion: `raw is True or raw == "true"`. -/
def cdpBoolState (v : Option PyLit) : Bool :=
  match v with
  | some (.boolean b) => b
  | some (.str s) => s = "true"
  | none => false

/-- The `live` coercion: `str(raw) if raw and raw not in ("off", "none",
False, None) else ""`. -/
def cdpLiveState (v : Option PyLit) : String :=
  match v with
  | some (.str s) => if s ≠ "" ∧ s ≠ "off" ∧ s ≠ "none" then s else ""
  | some (.boolean b) => if b then "True" else ""
  | none => ""

mutual

/-- `_convert_node` of `_cdp.py` (fuel-indexed; fuel 0 is unreachable on
the acyclic inputs Python terminates on). -/
def cdpConvert (fuel : Nat) (raw : CdpRaw) (nodes : List CdpRaw)
    (parentRole : String) (rm : RefManager) : StateNode × RefManager :=
  match fuel with
  | 0 => (.mk "" "" "" "" none none false false "" [], rm)
  | fuel + 1 =>
      let rawRole := match raw.role with
        | none => "generic"
        | some s => if s = "" then "generic" else s
      let role := internalRoleMap rawRole
      let name := (raw.name.getD "")
      let value := (raw.value.getD "")
      let checked := cdpTriState (cdpProp raw.properties "checked")
      let expanded := cdpTriState (cdpProp raw.properties "expanded")
      let disabled := cdpBoolState (cdpProp raw.properties "disabled")
      let focused := cdpBoolState (cdpProp raw.properties "focused")
      let live := cdpLiveState (cdpProp raw.properties "live")
      let (ref, rm₁) := getOrCreate rm (role, name, parentRole)
      let (children, rm₂) := cdpChildren fuel raw.childIds nodes role rm₁
      (.mk ref role name value checked expanded disabled focused live
         children, rm₂)
termination_by (fuel, 0, 0)

/-- The `for child_id in raw.get("childIds", [])` loop of
`_convert_node`: skip unknown ids, flatten ignored children through
`_collect_unignored`, keep only interesting nodes. -/
def cdpChildren (fuel : Nat) (ids : List String) (nodes : List CdpRaw)
    (parentRole : String) (rm : RefManager) : List StateNode × RefManager :=
  match ids with
  | [] => ([], rm)
  | i :: rest =>
      match cdpById nodes i with
      | none => cdpChildren fuel rest nodes parentRole rm
      | some childRaw =>
          if childRaw.ignored then
            let (grandchildren, rm₁) :=
              cdpCollect fuel childRaw.childIds nodes parentRole rm
            let kept := grandchildren.filter isInteresting
            let (tail, rm₂) := cdpChildren fuel rest nodes parentRole rm₁
            (kept ++ tail, rm₂)
          else
            let (childNode, rm₁) := cdpConvert fuel childRaw nodes parentRole rm
            let (tail, rm₂) := cdpChildren fuel rest nodes parentRole rm₁
            (if isInteresting childNode then childNode :: tail else tail, rm₂)
termination_by (fuel, 1, ids.length)

/-- `_collect_unignored`: non-ignored descendants of an ignored node,
flattened one level up (iterating the ignored node's `childIds`). -/
def cdpCollect (fuel : Nat) (ids : List String) (nodes : List CdpRaw)
    (parentRole : String) (rm : RefManager) : List StateNode × RefManager :=
  match fuel with
  | 0 => ([], rm)
  | fuel + 1 =>
      match ids with
      | [] => ([], rm)
      | i :: rest =>
          match cdpById nodes i with
          | none => cdpCollect (fuel + 1) rest nodes parentRole rm
          | some childRaw =>
              if childRaw.ignored then
                let (inner, rm₁) :=
                  cdpCollect fuel childRaw.childIds nodes parentRole rm
                let (tail, rm₂) := cdpCollect (fuel + 1) rest nodes parentRole rm₁
                (inner ++ tail, rm₂)
              else
                let (node, rm₁) := cdpConvert fuel childRaw nodes parentRole rm
                let (tail, rm₂) := cdpCollect (fuel + 1) rest nodes parentRole rm₁
                (node :: tail, rm₂)
termination_by (fuel, 0, ids.length + 1)

end

/-- The one-node placeholder tree returned when the accessibility tree is
unavailable: `StateNode(ref=ref_manager.get_or_create(("document", "",
"")), role="document", name="")`. -/
def cdpPlaceholder (rm : RefManager) : StateNode × RefManager :=
  let (ref, rm₁) := getOrCreate rm ("document", "", "")
  (.mk ref "document" "" "" none none false false "" [], rm₁)

/-- `_build_tree` of `_cdp.py`: placeholder on an empty node list, else
convert from the root (the first node without a `parentId`, defaulting to
the first node). -/
def buildTree (nodes : List CdpRaw) (rm : RefManager) :
    StateNode × RefManager :=
  match nodes with
  | [] => cdpPlaceholder rm
  | n₀ :: _ =>
      let rootRaw :=
        (nodes.find? (fun n => match n.parentId with
          | none => true
          | some s => s = "")).getD n₀
      cdpConvert (nodes.length + 1) rootRaw nodes "" rm

/-- `extract_ax_tree` of `_cdp.py` after the CDP round-trip: placeholder
when the protocol returned no nodes, else `_build_tree`. -/
def extractAxTree (nodes : List CdpRaw) (rm : RefManager) :
    StateNode × RefManager :=
  match nodes with
  | [] => cdpPlaceholder rm
  | _ => buildTree nodes rm

/-!
## TokenBudget (`formatter/token_budget.py`)

`tiktoken` is an external package that is absent in the environment the
spec reasons about; the embedded behaviour is the module's own
character-based fallback (`_TIKTOKEN_AVAILABLE = False`):
`count = max(1, len(text) // 4)` and slicing to `max_tokens * 4` chars.
-/

/-- Python slicing `text[:n]` for a non-negative bound. -/
def pySlice (text : String) (n : Nat) : String :=
  (text.data.take n).asString

/-- The truncation suffix appended by `TokenBudget.truncate`. -/
def truncationSuffix : String :=
  "\n[... truncated to fit token budget ...]"

/-- `TokenBudget.count` (heuristic branch). -/
def tokenCount (text : String) : Nat :=
  max 1 (text.length / 4)

/-- `TokenBudget.truncate` (heuristic branch): returns
`(truncated_text, was_truncated)`. -/
def tokenTruncate (text : String) (maxTokens : Nat) : String × Bool :=
  if tokenCount text ≤ maxTokens then (text, false)
  else (pySlice text (maxTokens * 4) ++ truncationSuffix, true)

/-- `TokenBudget.fits`. -/
def tokenFits (text : String) (maxTokens : Nat) : Bool :=
  tokenCount text ≤ maxTokens

/-!
## TreeDiff (`differ/tree_diff.py`)

`_index_nodes` builds the Python dict `ref -> (node, parent_role)` by a
depth-first walk; a repeated ref overwrites the stored value but keeps
the first insertion position, which `dictInsert` reproduces.
-/

/-- One index entry: `(ref, (node, parent_role))` flattened. -/
abbrev IdxEntry := String × StateNode × String

/-- Python dict assignment `d[k] = v`: replace in place when the key is
present, append otherwise. -/
def dictInsert (l : List IdxEntry) (k : String) (v : StateNode × String) :
    List IdxEntry :=
  match l with
  | [] => [(k, v)]
  | (k', v') :: t =>
      if k' = k then (k, v) :: t else (k', v') :: dictInsert t k v

mutual

/-- `_walk` of `tree_diff.py`: record the node, then walk the children
with this node's role as their `parent_role`. -/
def walkNode : StateNode → String → List IdxEntry → List IdxEntry
  | .mk ref role name value checked expanded disabled focused live children,
      parentRole, acc =>
    walkList children role
      (dictInsert acc ref
        (.mk ref role name value checked expanded disabled focused live
           children, parentRole))

/-- The `for child in node.children` loop of `_walk`. -/
def walkList : List StateNode → String → List IdxEntry → List IdxEntry
  | [], _, acc => acc
  | c :: cs, parentRole, acc => walkList cs parentRole (walkNode c parentRole acc)

end

/-- `_index_nodes`. -/
def indexNodes (root : StateNode) : List IdxEntry :=
  walkNode root "" []

/-- Index lookup `old_nodes[r]` / `r in old_nodes`. -/
def idxFind : List IdxEntry → String → Option (StateNode × String)
  | [], _ => none
  | (k, v) :: t, r => if k = r then some v else idxFind t r

/-- `_COMPARED_PROPS` in order. -/
def comparedProps : List String :=
  ["value", "checked", "expanded", "disabled", "focused", "live"]

/-- `getattr(node, prop)` for the compared semantic properties. -/
def getProp (n : StateNode) (p : String) : PropVal :=
  if p = "value" then .s n.value
  else if p = "checked" then .tri n.checked
  else if p = "expanded" then .tri n.expanded
  else if p = "disabled" then .b n.disabled
  else if p = "focused" then .b n.focused
  else .s n.live

/-- `_compare_props`: the changed-property dict in `_COMPARED_PROPS`
order. -/
def compareProps (old new : StateNode) : List (String × PropVal × PropVal) :=
  comparedProps.filterMap (fun p =>
    let oldVal := getProp old p
    let newVal := getProp new p
    if oldVal ≠ newVal then some (p, oldVal, newVal) else none)

/-- `_find_by_fingerprint`: first not-yet-matched old node with the same
`(role, name, parent_role)`. -/
def findByFingerprint (role name parentRole : String) :
    List IdxEntry → List String → Option (String × StateNode)
  | [], _ => none
  | (ref, node, nodeParentRole) :: t, matched =>
      if ref ∈ matched then findByFingerprint role name parentRole t matched
      else if node.role = role ∧ node.name = name ∧ nodeParentRole = parentRole
      then some (ref, node)
      else findByFingerprint role name parentRole t matched

/-- The running state of the `for new_ref ... in new_nodes.items()` loop
of `diff_trees`. -/
structure DiffState where
  added : List StateNode := []
  changed : List NodeChange := []
  matched : List String := []
deriving DecidableEq, Repr

/-- One iteration of the `diff_trees` loop for a new-index entry. -/
def diffStep (oldIdx : List IdxEntry) (st : DiffState) (e : IdxEntry) :
    DiffState :=
  let (newRef, newNode, newParentRole) := e
  match idxFind oldIdx newRef with
  | some (oldNode, _) =>
      let st₁ := { st with matched := newRef :: st.matched }
      match compareProps oldNode newNode with
      | [] => st₁
      | propsDiff =>
          { st₁ with changed := st₁.changed ++
              [⟨newRef, newNode.role, newNode.name, propsDiff⟩] }
  | none =>
      match findByFingerprint newNode.role newNode.name newParentRole oldIdx
          st.matched with
      | some (oldRef, oldNode) =>
          let st₁ := { st with matched := oldRef :: st.matched }
          match compareProps oldNode newNode with
          | [] => st₁
          | propsDiff =>
              { st₁ with changed := st₁.changed ++
                  [⟨newRef, newNode.role, newNode.name, propsDiff⟩] }
      | none => { st with added := st.added ++ [newNode] }

/-- `diff_trees`. -/
def diffTrees (oldRoot newRoot : StateNode) (step : Nat)
    (repType : RepresentationType) : Delta :=
  let oldIdx := indexNodes oldRoot
  let newIdx := indexNodes newRoot
  let final := newIdx.foldl (diffStep oldIdx) {}
  let removed :=
    (oldIdx.filter (fun e => e.1 ∉ final.matched)).map (fun e => e.2.1)
  { step := step
    added := final.added
    removed := removed
    changed := final.changed
    unchanged_count :=
      ((newIdx.length : ℤ) - final.added.length - final.changed.length).toNat
    representation_type := repType }

/-!
## SemanticFilter (`differ/semantic_filter.py`)

The module's regular expressions are small anchored patterns; each is
embedded as an executable character-level matcher with the same
language.
-/

/-- `^\d{1,2}:\d{2}(:\d{2})?$` after the leading digits and colon:
`\d{2}(:\d{2})?$`. -/
def timerTailMatch : List Char → Bool
  | [m₁, m₂] => m₁.isDigit && m₂.isDigit
  | [m₁, m₂, ':', s₁, s₂] => m₁.isDigit && m₂.isDigit && s₁.isDigit && s₂.isDigit
  | _ => false

/-- `^\d{1,2}:\d{2}(:\d{2})?$` (clock pattern). -/
def clockMatch (cs : List Char) : Bool :=
  match cs with
  | a :: ':' :: rest => a.isDigit && timerTailMatch rest
  | a :: b :: ':' :: rest => a.isDigit && b.isDigit && timerTailMatch rest
  | _ => false

/-- Contiguous-prefix test on characters. -/
def charsStartWith : List Char → List Char → Bool
  | [], _ => true
  | _ :: _, [] => false
  | a :: as, b :: bs => a == b && charsStartWith as bs

/-- `^\d+\s*(second|minute|hour|sec|min)s?\s*ago$` with `re.I`
(checked on lower-cased input). -/
def agoMatch (cs : List Char) : Bool :=
  match cs with
  | [] => false
  | c :: _ =>
      c.isDigit &&
      (let rest := (cs.dropWhile Char.isDigit).dropWhile Char.isWhitespace
       ["second", "minute", "hour", "sec", "min"].any (fun u =>
         ["", "s"].any (fun plural =>
           let pat := (u ++ plural).data
           charsStartWith pat rest &&
           (rest.drop pat.length).dropWhile Char.isWhitespace == ['a', 'g', 'o'])))

/-- `^(just now|moments ago)$` with `re.I` (checked on lower-cased
input). -/
def justNowMatch (cs : List Char) : Bool :=
  cs == "just now".data || cs == "moments ago".data

/-- `^\d{1,3}%$` (pure percentage). -/
def percentMatch : List Char → Bool
  | [a, '%'] => a.isDigit
  | [a, b, '%'] => a.isDigit && b.isDigit
  | [a, b, c, '%'] => a.isDigit && b.isDigit && c.isDigit
  | _ => false

/-- `SemanticFilter._is_timer_text`: strip, then try the `_TIMER_PATTERNS`
in order. -/
def isTimerText (text : String) : Bool :=
  let cs := text.trim.data
  clockMatch cs || agoMatch (cs.map Char.toLower) ||
    justNowMatch (cs.map Char.toLower) || percentMatch cs

/-- Contiguous-substring test (Python `re.search` of a literal). -/
def hasSubstring (needle : List Char) : List Char → Bool
  | [] => needle.isEmpty
  | c :: t => charsStartWith needle (c :: t) || hasSubstring needle t

/-- `_AD_HINTS.search`: any of the advertising keywords occurs as a
substring, case-insensitively. -/
def isAdText (text : String) : Bool :=
  let hay := text.data.map Char.toLower
  ["advertisement", "sponsored", "promoted", "ad choice", "ad by"].any
    (fun needle => hasSubstring needle.data hay)

/-- `_NOISY_LIVE_ROLES`. -/
def noisyLiveRoles : List String := ["status", "timer", "marquee", "log"]

/-- `SemanticFilter._is_noisy_node`. -/
def isNoisyNode (node : StateNode) : Bool :=
  if isAdText node.name then true
  else if (node.role = "text" ∨ node.role = "StaticText" ∨
      node.role = "generic") ∧ isTimerText node.name then true
  else if node.live ≠ "" ∧ node.role ∈ noisyLiveRoles then true
  else false

/-- `str(new_val)` for a changed-property value. -/
def propValStr : PropVal → String
  | .s v => v
  | .b true => "True"
  | .b false => "False"
  | .tri none => "None"
  | .tri (some true) => "True"
  | .tri (some false) => "False"

/-- `SemanticFilter._is_noisy_change`: ad content, or the only changed
property is a timer-like `value` (for a dict, `set(keys) == {"value"}`
means exactly one entry, keyed `"value"`). -/
def isNoisyChange (change : NodeChange) : Bool :=
  if isAdText change.name then true
  else
    match change.changed_props with
    | [(p, _, newVal)] => p = "value" && isTimerText (propValStr newVal)
    | _ => false

/-- `SemanticFilter.filter`. -/
def semanticFilter (delta : Delta) : Delta :=
  { delta with
    added := delta.added.filter (fun n => !isNoisyNode n)
    removed := delta.removed.filter (fun n => !isNoisyNode n)
    changed := delta.changed.filter (fun c => !isNoisyChange c) }

/-!
## Observer surface (`core/lens.py`, `core/types.py`)

`ObservationResult` is a plain `@dataclass`, so its generated `__init__`
accepts exactly the declared field names as keyword arguments; the
embedding records the declared fields and the keyword arguments /
attribute names the orchestrator actually uses.
-/

/-- The fields declared by the `ObservationResult` dataclass
(`core/types.py`, lines 130–142), in order. -/
def observationResultFields : List String :=
  ["step", "url", "representation_type", "formatted_text", "delta",
   "page_state", "token_count", "latency_ms"]

/-- The keyword arguments `BrowserLens.observe` passes to
`ObservationResult(...)` (`core/lens.py`, lines 131–141), in order. -/
def lensObservationResultKwargs : List String :=
  ["step", "url", "representation_type", "formatted_text", "delta",
   "page_state", "token_count", "latency_ms", "diff_discarded"]

/-- A dataclass-generated `__init__` accepts a keyword-argument list iff
every keyword names a declared field (otherwise it raises `TypeError`). -/
def dataclassCallAccepted (fields kwargs : List String) : Bool :=
  kwargs.all (fun k => fields.contains k)

/-- The methods defined on `OutputFormatter`
(`formatter/formatter.py`). -/
def outputFormatterMethods : List String :=
  ["__init__", "format", "_format_full", "_render_node", "_format_delta",
   "_render_change"]

/-- The formatter attributes `BrowserLens.observe` accesses
(`core/lens.py`, lines 119 and 123). -/
def lensFormatterCallees : List String := ["format", "format_full"]

/-- Claim C1 (code bug): `BrowserLens.observe` passes `diff_discarded=`
to the `ObservationResult` constructor, but the dataclass declares no
such field, so the constructor call is rejected (`TypeError`) and no
result carrying `diff_discarded` is ever produced. -/
theorem observationResult_missing_diff_discarded :
    "diff_discarded" ∈ lensObservationResultKwargs ∧
    "diff_discarded" ∉ observationResultFields ∧
    dataclassCallAccepted observationResultFields lensObservationResultKwargs
      = false := by
  decide

/-- Claim C2 (code bug): the delta-size fallback in `BrowserLens.observe`
calls `self._formatter.format_full(...)`, an attribute `OutputFormatter`
does not define (only the private `_format_full` exists), so the fallback
raises `AttributeError` instead of re-rendering the full state. -/
theorem formatter_format_full_missing :
    "format_full" ∈ lensFormatterCallees ∧
    "format_full" ∉ outputFormatterMethods ∧
    "_format_full" ∈ outputFormatterMethods := by
  decide

/-- Claim C3, counterexample: when the Playwright snapshot primitive
returns nothing, `A11yExtractor.extract` converts the empty dict and the
resulting one-node root has role `"generic"`, not `"document"` as the
claim states. -/
theorem a11y_empty_snapshot_root_not_document :
    (a11yExtractRoot none RefManager.init).1.role = "generic" ∧
    ¬ (a11yExtractRoot none RefManager.init).1.role = "document" ∧
    (a11yExtractRoot none RefManager.init).1.name = "" ∧
    (a11yExtractRoot none RefManager.init).1.children = [] := by
  decide

/-- Claim C3, amended: when the CDP snapshot primitive returns an empty
node list, `extract_ax_tree` returns a one-node tree with role
`"document"` and empty name; when the Playwright snapshot primitive
returns nothing, `A11yExtractor.extract` instead returns a one-node tree
with role `"generic"` and empty name — in both cases the pipeline still
produces output. -/
theorem unavailable_a11y_tree_one_node_fallback :
    extractAxTree [] RefManager.init =
      (.mk "@e1" "document" "" "" none none false false "" [],
       ⟨1, [(("document", "", ""), "@e1")], [("@e1", ("document", "", ""))]⟩) ∧
    (a11yExtractRoot none RefManager.init).1 =
      .mk "@e1" "generic" "" "" none none false false "" [] := by
  decide

/-- Claim C9: `SemanticFilter.filter` is idempotent — filtering a
filtered delta returns the same added, removed and changed sequences. -/
theorem semanticFilter_idempotent (delta : Delta) :
    (semanticFilter (semanticFilter delta)).added =
      (semanticFilter delta).added ∧
    (semanticFilter (semanticFilter delta)).removed =
      (semanticFilter delta).removed ∧
    (semanticFilter (semanticFilter delta)).changed =
      (semanticFilter delta).changed := by
  refine ⟨?_, ?_, ?_⟩ <;>
    simp [semanticFilter, List.filter_filter]

/-- Claim C10: `SemanticFilter.filter` only removes elements from the
three change sequences, keeping the survivors in their relative order,
and leaves every other field of the `Delta` (step, unchanged_count,
unchanged_summary, is_full_state, representation_type) untouched; in
particular `unchanged_count` is not recomputed. -/
theorem semanticFilter_frame (delta : Delta) :
    (semanticFilter delta).added.Sublist delta.added ∧
    (semanticFilter delta).removed.Sublist delta.removed ∧
    (semanticFilter delta).changed.Sublist delta.changed ∧
    (semanticFilter delta).step = delta.step ∧
    (semanticFilter delta).unchanged_count = delta.unchanged_count ∧
    (semanticFilter delta).unchanged_summary = delta.unchanged_summary ∧
    (semanticFilter delta).is_full_state = delta.is_full_state ∧
    (semanticFilter delta).representation_type = delta.representation_type := by
  refine ⟨List.filter_sublist _, List.filter_sublist _, List.filter_sublist _,
    rfl, rfl, rfl, rfl, rfl⟩

/-- Claim C8: whenever `TokenBudget.truncate(t, n)` reports truncation,
the token count of the returned text is at most `n` plus the token count
of the truncation suffix. -/
theorem tokenTruncate_bound (text : String) (maxTokens : Nat)
    (h : (tokenTruncate text maxTokens).2 = true) :
    tokenCount (tokenTruncate text maxTokens).1 ≤
      maxTokens + tokenCount truncationSuffix := by
  by_cases hc : tokenCount text ≤ maxTokens
  · simp [tokenTruncate, hc] at h
  · simp only [tokenTruncate, if_neg hc]
    have hlen : (pySlice text (maxTokens * 4) ++ truncationSuffix).length ≤
        maxTokens * 4 + truncationSuffix.length := by
      rw [String.length_append]
      have : (pySlice text (maxTokens * 4)).length ≤ maxTokens * 4 := by
        show (text.data.take (maxTokens * 4)).asString.length ≤ maxTokens * 4
        rw [List.length_asString]
        exact List.length_take_le _ _
      omega
    unfold tokenCount
    have hsuffix : truncationSuffix.length = 40 := by decide
    rw [hsuffix] at hlen
    have hdiv : (pySlice text (maxTokens * 4) ++ truncationSuffix).length / 4 ≤
        maxTokens + 10 := by
      calc (pySlice text (maxTokens * 4) ++ truncationSuffix).length / 4
          ≤ (maxTokens * 4 + 40) / 4 := Nat.div_le_div_right hlen
        _ = maxTokens + 10 := by omega
    rw [hsuffix]
    have hten : (1 : ℕ) ⊔ (40 / 4) = 10 := by decide
    rw [hten]
    exact max_le (by omega) hdiv

/-- Witness for claim C8 at a concrete truncating input. -/
theorem tokenTruncate_bound_witness :
    (tokenTruncate "abcdefghij" 1).2 = true ∧
    tokenCount (tokenTruncate "abcdefghij" 1).1 ≤
      1 + tokenCount truncationSuffix :=
  ⟨by decide, tokenTruncate_bound "abcdefghij" 1 (by decide)⟩

/-!
## Lemmas about `RefManager.get_or_create`
-/

theorem assocFind_none_iff {α : Type} [DecidableEq α] {β : Type}
    (l : List (α × β)) (a : α) :
    assocFind l a = none ↔ a ∉ l.map Prod.fst := by
  induction l with
  | nil => simp [assocFind]
  | cons hd t ih =>
      obtain ⟨k, v⟩ := hd
      by_cases hk : k = a
      · subst hk
        simp [assocFind]
      · simp [assocFind, hk, ih, Ne.symm hk]

theorem assocFind_append_of_some {α : Type} [DecidableEq α] {β : Type}
    {l : List (α × β)} {a : α} {b : β} (l' : List (α × β))
    (h : assocFind l a = some b) : assocFind (l ++ l') a = some b := by
  induction l with
  | nil => simp [assocFind] at h
  | cons hd t ih =>
      obtain ⟨k, v⟩ := hd
      by_cases hk : k = a
      · subst hk
        simp_all [assocFind]
      · simp_all [assocFind, hk]

theorem assocFind_append_self {α : Type} [DecidableEq α] {β : Type}
    {l : List (α × β)} {a : α} (b : β)
    (h : assocFind l a = none) : assocFind (l ++ [(a, b)]) a = some b := by
  induction l with
  | nil => simp [assocFind]
  | cons hd t ih =>
      obtain ⟨k, v⟩ := hd
      by_cases hk : k = a
      · simp [assocFind, hk] at h
      · simp_all [assocFind, hk]

theorem getOrCreate_of_found {rm : RefManager} {fp : Fingerprint} {r : String}
    (h : assocFind rm.fp_to_ref fp = some r) : getOrCreate rm fp = (r, rm) := by
  simp [getOrCreate, h]

theorem getOrCreate_lookup_self (rm : RefManager) (fp : Fingerprint) :
    assocFind (getOrCreate rm fp).2.fp_to_ref fp =
      some (getOrCreate rm fp).1 := by
  unfold getOrCreate
  cases h : assocFind rm.fp_to_ref fp with
  | some r => simpa using h
  | none => simpa using assocFind_append_self _ h

theorem getOrCreate_lookup_mono {rm : RefManager} {fp : Fingerprint}
    {r : String} (fp' : Fingerprint) (h : assocFind rm.fp_to_ref fp = some r) :
    assocFind (getOrCreate rm fp').2.fp_to_ref fp = some r := by
  unfold getOrCreate
  cases h' : assocFind rm.fp_to_ref fp' with
  | some r' => simpa using h
  | none => simpa using assocFind_append_of_some _ h

theorem runCalls_append (l₁ l₂ : List Fingerprint) :
    runCalls (l₁ ++ l₂) =
      l₂.foldl (fun rm fp => (getOrCreate rm fp).2) (runCalls l₁) := by
  unfold runCalls
  exact List.foldl_append _ _ _ _

theorem foldl_getOrCreate_lookup_mono {rm : RefManager} {fp : Fingerprint}
    {r : String} (l : List Fingerprint)
    (h : assocFind rm.fp_to_ref fp = some r) :
    assocFind ((l.foldl (fun rm fp => (getOrCreate rm fp).2) rm).fp_to_ref) fp
      = some r := by
  induction l generalizing rm with
  | nil => simpa using h
  | cons hd t ih => exact ih (getOrCreate_lookup_mono hd h)


theorem assocFind_some_mem {α : Type} [DecidableEq α] {β : Type}
    {l : List (α × β)} {a : α} {b : β} (h : assocFind l a = some b) :
    a ∈ l.map Prod.fst := by
  by_contra hmem
  rw [(assocFind_none_iff l a).mpr hmem] at h
  cases h

theorem getOrCreate_snd_of_found {rm : RefManager} {fp : Fingerprint}
    {r : String} (h : assocFind rm.fp_to_ref fp = some r) :
    (getOrCreate rm fp).2 = rm := by
  simp [getOrCreate, h]

theorem getOrCreate_snd_of_none {rm : RefManager} {fp : Fingerprint}
    (h : assocFind rm.fp_to_ref fp = none) :
    (getOrCreate rm fp).2 =
      ⟨rm.counter + 1,
       rm.fp_to_ref ++ [(fp, "@e" ++ toString (rm.counter + 1))],
       rm.ref_to_fp ++ [("@e" ++ toString (rm.counter + 1), fp)]⟩ := by
  simp [getOrCreate, h]

theorem getOrCreate_fst_of_none {rm : RefManager} {fp : Fingerprint}
    (h : assocFind rm.fp_to_ref fp = none) :
    (getOrCreate rm fp).1 = "@e" ++ toString (rm.counter + 1) := by
  simp [getOrCreate, h]

theorem foldl_getOrCreate_counter_len {rm : RefManager}
    (l : List Fingerprint) (h : rm.counter = rm.fp_to_ref.length) :
    (l.foldl (fun rm fp => (getOrCreate rm fp).2) rm).counter =
      (l.foldl (fun rm fp => (getOrCreate rm fp).2) rm).fp_to_ref.length := by
  induction l generalizing rm with
  | nil => simpa using h
  | cons hd t ih =>
      rw [List.foldl_cons]
      refine ih ?_
      cases h' : assocFind rm.fp_to_ref hd with
      | some r => rw [getOrCreate_snd_of_found h']; exact h
      | none => rw [getOrCreate_snd_of_none h']; simp [h]

theorem foldl_getOrCreate_keys_nodup {rm : RefManager}
    (l : List Fingerprint) (h : (rm.fp_to_ref.map Prod.fst).Nodup) :
    ((l.foldl (fun rm fp => (getOrCreate rm fp).2) rm).fp_to_ref.map
      Prod.fst).Nodup := by
  induction l generalizing rm with
  | nil => simpa using h
  | cons hd t ih =>
      rw [List.foldl_cons]
      refine ih ?_
      cases h' : assocFind rm.fp_to_ref hd with
      | some r => rw [getOrCreate_snd_of_found h']; exact h
      | none =>
          rw [getOrCreate_snd_of_none h']
          have hmem : hd ∉ rm.fp_to_ref.map Prod.fst :=
            (assocFind_none_iff _ _).mp h'
          simp [List.nodup_append, h, hmem]

theorem foldl_getOrCreate_keys_mem {rm : RefManager} (l : List Fingerprint)
    (fp : Fingerprint) :
    fp ∈ (l.foldl (fun rm fp => (getOrCreate rm fp).2) rm).fp_to_ref.map
        Prod.fst ↔
      fp ∈ rm.fp_to_ref.map Prod.fst ∨ fp ∈ l := by
  induction l generalizing rm with
  | nil => simp
  | cons hd t ih =>
      rw [List.foldl_cons, ih]
      cases h' : assocFind rm.fp_to_ref hd with
      | some r =>
          rw [getOrCreate_snd_of_found h']
          have hmem := assocFind_some_mem h'
          simp only [List.mem_cons]
          constructor
          · intro hcase
            rcases hcase with hin | hin
            · exact Or.inl hin
            · exact Or.inr (Or.inr hin)
          · intro hcase
            rcases hcase with hin | hin | hin
            · exact Or.inl hin
            · exact Or.inl (hin ▸ hmem)
            · exact Or.inr hin
      | none =>
          rw [getOrCreate_snd_of_none h']
          simp only [List.map_append, List.mem_append, List.map_cons,
            List.map_nil, List.mem_singleton, List.mem_cons]
          tauto

theorem runCalls_counter (fps : List Fingerprint) :
    (runCalls fps).counter = fps.dedup.length := by
  have hlen : (runCalls fps).counter = (runCalls fps).fp_to_ref.length :=
    foldl_getOrCreate_counter_len fps rfl
  have hnodup : ((runCalls fps).fp_to_ref.map Prod.fst).Nodup :=
    foldl_getOrCreate_keys_nodup fps (by simp [RefManager.init])
  have hmem : ∀ fp, fp ∈ (runCalls fps).fp_to_ref.map Prod.fst ↔ fp ∈ fps := by
    intro fp
    have hstep := @foldl_getOrCreate_keys_mem RefManager.init fps fp
    simpa [RefManager.init, runCalls] using hstep
  have hfin : ((runCalls fps).fp_to_ref.map Prod.fst).toFinset =
      fps.dedup.toFinset := by
    ext fp
    simp [List.mem_toFinset, hmem fp, List.mem_dedup]
  have h₁ := List.toFinset_card_of_nodup hnodup
  have h₂ := List.toFinset_card_of_nodup (l := fps.dedup) fps.nodup_dedup
  rw [hlen]
  calc (runCalls fps).fp_to_ref.length
      = ((runCalls fps).fp_to_ref.map Prod.fst).length :=
        (List.length_map _ _).symm
    _ = ((runCalls fps).fp_to_ref.map Prod.fst).toFinset.card := h₁.symm
    _ = fps.dedup.toFinset.card := by rw [hfin]
    _ = fps.dedup.length := h₂

/-- Unfolded equation for `a11yConvert` on a constructor. -/
theorem a11yConvert_eq (ro nm vl : Option String) (ck ex : Option Bool)
    (di fo : Option Bool) (li : Option String) (ch : List RawA11y)
    (pr : String) (rm : RefManager) :
    a11yConvert (.mk ro nm vl ck ex di fo li ch) pr rm =
      (StateNode.mk
        (getOrCreate rm (ro.getD "generic", nm.getD "", pr)).1
        (ro.getD "generic") (nm.getD "") (vl.getD "") ck ex (di.getD false)
        (fo.getD false) (li.getD "")
        (a11yConvertList ch (ro.getD "generic")
          (getOrCreate rm (ro.getD "generic", nm.getD "", pr)).2).1,
       (a11yConvertList ch (ro.getD "generic")
         (getOrCreate rm (ro.getD "generic", nm.getD "", pr)).2).2) := rfl

/-- Unfolded equation for `a11yConvertList` on nil. -/
theorem a11yConvertList_nil (pr : String) (rm : RefManager) :
    a11yConvertList [] pr rm = ([], rm) := rfl

/-- Unfolded equation for `a11yConvertList` on cons. -/
theorem a11yConvertList_cons (c : RawA11y) (cs : List RawA11y) (pr : String)
    (rm : RefManager) :
    a11yConvertList (c :: cs) pr rm =
      ((a11yConvert c pr rm).1 ::
         (a11yConvertList cs pr (a11yConvert c pr rm).2).1,
       (a11yConvertList cs pr (a11yConvert c pr rm).2).2) := rfl

/-- `rm'` preserves every fingerprint-to-ref binding of `rm`. -/
def RefSub (rm rm' : RefManager) : Prop :=
  ∀ (fp : Fingerprint) (r : String),
    assocFind rm.fp_to_ref fp = some r → assocFind rm'.fp_to_ref fp = some r

theorem refSub_rfl (rm : RefManager) : RefSub rm rm := fun _ _ h => h

theorem refSub_trans {rmA rmB rmC : RefManager} (h₁ : RefSub rmA rmB)
    (h₂ : RefSub rmB rmC) : RefSub rmA rmC :=
  fun fp r h => h₂ fp r (h₁ fp r h)

theorem refSub_getOrCreate (rm : RefManager) (fp : Fingerprint) :
    RefSub rm (getOrCreate rm fp).2 :=
  fun _ _ h => getOrCreate_lookup_mono fp h

mutual

theorem refSub_a11yConvert :
    ∀ (raw : RawA11y) (pr : String) (rm : RefManager),
      RefSub rm (a11yConvert raw pr rm).2
  | .mk ro nm vl ck ex di fo li ch, pr, rm => by
      rw [a11yConvert_eq]
      exact refSub_trans (refSub_getOrCreate rm _)
        (refSub_a11yConvertList ch _ _)

theorem refSub_a11yConvertList :
    ∀ (l : List RawA11y) (pr : String) (rm : RefManager),
      RefSub rm (a11yConvertList l pr rm).2
  | [], pr, rm => by
      rw [a11yConvertList_nil]
      exact refSub_rfl rm
  | c :: cs, pr, rm => by
      rw [a11yConvertList_cons]
      exact refSub_trans (refSub_a11yConvert c pr rm)
        (refSub_a11yConvertList cs pr _)

end

mutual

theorem a11yConvert_stable :
    ∀ (raw : RawA11y) (pr : String) (rm rm₂ : RefManager),
      RefSub (a11yConvert raw pr rm).2 rm₂ →
      a11yConvert raw pr rm₂ = ((a11yConvert raw pr rm).1, rm₂)
  | .mk ro nm vl ck ex di fo li ch, pr, rm, rm₂, hsub => by
      rw [a11yConvert_eq] at hsub ⊢
      rw [a11yConvert_eq]
      have h₀ := getOrCreate_lookup_self rm (ro.getD "generic", nm.getD "", pr)
      have hEnd :=
        refSub_a11yConvertList ch (ro.getD "generic")
          (getOrCreate rm (ro.getD "generic", nm.getD "", pr)).2 _ _ h₀
      have h₂ := hsub _ _ hEnd
      rw [getOrCreate_of_found h₂]
      have hcs :=
        a11yConvertList_stable ch (ro.getD "generic")
          (getOrCreate rm (ro.getD "generic", nm.getD "", pr)).2 rm₂ hsub
      rw [hcs]

theorem a11yConvertList_stable :
    ∀ (l : List RawA11y) (pr : String) (rm rm₂ : RefManager),
      RefSub (a11yConvertList l pr rm).2 rm₂ →
      a11yConvertList l pr rm₂ = ((a11yConvertList l pr rm).1, rm₂)
  | [], pr, rm, rm₂, hsub => by rw [a11yConvertList_nil, a11yConvertList_nil]
  | c :: cs, pr, rm, rm₂, hsub => by
      rw [a11yConvertList_cons] at hsub ⊢
      rw [a11yConvertList_cons]
      have hc : a11yConvert c pr rm₂ = ((a11yConvert c pr rm).1, rm₂) :=
        a11yConvert_stable c pr rm rm₂
          (refSub_trans (refSub_a11yConvertList cs pr _) hsub)
      rw [hc]
      have hcs := a11yConvertList_stable cs pr (a11yConvert c pr rm).2 rm₂ hsub
      rw [hcs]

end

/-- Claim C5: `RefManager.get_or_create` returns the ref of the first
call for a fingerprint seen before on this manager; a never-seen
fingerprint gets the fresh ref `@e<counter+1>` where the counter equals
the number of distinct fingerprints seen so far; consequently converting
the same raw tree twice on the same manager yields the identical stamped
tree (and leaves the manager unchanged). -/
theorem refManager_ref_reuse :
    (∀ (pre post : List Fingerprint) (fp : Fingerprint),
      (getOrCreate (runCalls (pre ++ fp :: post)) fp).1 =
        (getOrCreate (runCalls pre) fp).1) ∧
    (∀ (fps : List Fingerprint) (fp : Fingerprint), fp ∉ fps →
      (getOrCreate (runCalls fps) fp).1 =
        "@e" ++ toString ((runCalls fps).counter + 1) ∧
      (runCalls fps).counter = fps.dedup.length) ∧
    (∀ (raw : RawA11y) (parentRole : String) (rm : RefManager),
      a11yConvert raw parentRole (a11yConvert raw parentRole rm).2 =
        ((a11yConvert raw parentRole rm).1,
         (a11yConvert raw parentRole rm).2)) := by
  refine ⟨?_, ?_, ?_⟩
  · intro pre post fp
    have h₀ := getOrCreate_lookup_self (runCalls pre) fp
    have hchain : assocFind (runCalls (pre ++ fp :: post)).fp_to_ref fp =
        some (getOrCreate (runCalls pre) fp).1 := by
      rw [runCalls_append, List.foldl_cons]
      exact foldl_getOrCreate_lookup_mono post h₀
    rw [getOrCreate_of_found hchain]
  · intro fps fp hnot
    have hnone : assocFind (runCalls fps).fp_to_ref fp = none := by
      apply (assocFind_none_iff _ _).mpr
      intro hmem
      have hkeys := @foldl_getOrCreate_keys_mem RefManager.init fps fp
      simp only [RefManager.init, List.map_nil, List.not_mem_nil,
        false_or] at hkeys
      exact hnot (hkeys.mp (by simpa [runCalls] using hmem))
    exact ⟨getOrCreate_fst_of_none hnone, runCalls_counter fps⟩
  · intro raw parentRole rm
    exact a11yConvert_stable raw parentRole rm _ (refSub_rfl _)

/-- Witness for claim C5: a seen fingerprint reuses the first ref, and a
fresh fingerprint on a manager that has seen one distinct fingerprint
twice gets `@e2`. -/
theorem refManager_ref_reuse_witness :
    ((getOrCreate
        (runCalls [("document", "", ""), ("button", "Go", "document"),
          ("document", "", "")]) ("button", "Go", "document")).1 =
      (getOrCreate (runCalls [("document", "", "")])
        ("button", "Go", "document")).1) ∧
    (("textbox", "Search", "document") ∉
      ([("document", "", ""), ("document", "", "")] : List Fingerprint)) ∧
    (getOrCreate (runCalls [("document", "", ""), ("document", "", "")])
        ("textbox", "Search", "document")).1 =
      "@e" ++ toString
        ((runCalls [("document", "", ""), ("document", "", "")]).counter + 1) ∧
    (runCalls [("document", "", ""), ("document", "", "")]).counter =
      [(("document", "", "") : Fingerprint), ("document", "", "")].dedup.length :=
  ⟨refManager_ref_reuse.1 [("document", "", "")] [("document", "", "")]
      ("button", "Go", "document"),
   by decide,
   (refManager_ref_reuse.2.1 [("document", "", ""), ("document", "", "")]
      ("textbox", "Search", "document") (by decide)).1,
   (refManager_ref_reuse.2.1 [("document", "", ""), ("document", "", "")]
      ("textbox", "Search", "document") (by decide)).2⟩

/-!
## Lemmas about `_index_nodes` and `diff_trees`
-/

mutual

/-- Number of nodes of a `StateNode` tree (what `len(flat_nodes())`
counts). -/
def nodeCount : StateNode → Nat
  | .mk _ _ _ _ _ _ _ _ _ ch => 1 + nodeCountList ch

def nodeCountList : List StateNode → Nat
  | [] => 0
  | c :: cs => nodeCount c + nodeCountList cs

end

mutual

/-- The refs of a tree in depth-first (preorder) order. -/
def refsList : StateNode → List String
  | .mk r _ _ _ _ _ _ _ _ ch => r :: refsListList ch

def refsListList : List StateNode → List String
  | [] => []
  | c :: cs => refsList c ++ refsListList cs

end

mutual

theorem refsList_length : ∀ t : StateNode, (refsList t).length = nodeCount t
  | .mk r ro nm vl ck ex di fo li ch => by
      rw [refsList, nodeCount, List.length_cons, refsListList_length ch]
      omega

theorem refsListList_length : ∀ l : List StateNode,
    (refsListList l).length = nodeCountList l
  | [] => rfl
  | c :: cs => by
      rw [refsListList, nodeCountList, List.length_append,
        refsList_length c, refsListList_length cs]

end

theorem dictInsert_keys_of_mem {l : List IdxEntry} {k : String}
    (v : StateNode × String) (h : k ∈ l.map Prod.fst) :
    (dictInsert l k v).map Prod.fst = l.map Prod.fst := by
  induction l with
  | nil => simp at h
  | cons hd t ih =>
      obtain ⟨k', v'⟩ := hd
      by_cases hk : k' = k
      · subst hk
        simp [dictInsert]
      · simp only [List.map_cons, List.mem_cons] at h
        rcases h with h | h
        · exact absurd h.symm hk
        · simp [dictInsert, hk, ih h]

theorem dictInsert_keys_of_not_mem {l : List IdxEntry} {k : String}
    (v : StateNode × String) (h : k ∉ l.map Prod.fst) :
    (dictInsert l k v).map Prod.fst = l.map Prod.fst ++ [k] := by
  induction l with
  | nil => simp [dictInsert]
  | cons hd t ih =>
      obtain ⟨k', v'⟩ := hd
      simp only [List.map_cons, List.mem_cons] at h
      push_neg at h
      simp [dictInsert, Ne.symm h.1, ih h.2]

theorem dictInsert_keys_nodup {l : List IdxEntry} {k : String}
    (v : StateNode × String) (h : (l.map Prod.fst).Nodup) :
    ((dictInsert l k v).map Prod.fst).Nodup := by
  by_cases hk : k ∈ l.map Prod.fst
  · rw [dictInsert_keys_of_mem v hk]; exact h
  · rw [dictInsert_keys_of_not_mem v hk]
    simp [List.nodup_append, h, hk]

theorem dictInsert_forall {P : IdxEntry → Prop} {l : List IdxEntry}
    {k : String} {v : StateNode × String} (hl : ∀ e ∈ l, P e)
    (hv : P (k, v)) : ∀ e ∈ dictInsert l k v, P e := by
  induction l with
  | nil => simpa [dictInsert] using hv
  | cons hd t ih =>
      obtain ⟨k', v'⟩ := hd
      by_cases hk : k' = k
      · subst hk
        simp only [dictInsert, if_pos rfl]
        intro e he
        rcases List.mem_cons.mp he with heq | hmem
        · exact heq ▸ hv
        · exact hl e (List.mem_cons_of_mem _ hmem)
      · simp only [dictInsert, if_neg hk]
        intro e he
        rcases List.mem_cons.mp he with heq | hmem
        · exact heq ▸ hl (k', v') (List.mem_cons_self _ _)
        · exact ih (fun x hx => hl x (List.mem_cons_of_mem _ hx)) e hmem

mutual

theorem walkNode_wf : ∀ (n : StateNode) (pr : String) (acc : List IdxEntry),
    (∀ e ∈ acc, e.2.1.ref = e.1) → ∀ e ∈ walkNode n pr acc, e.2.1.ref = e.1
  | .mk r ro nm vl ck ex di fo li ch, pr, acc, hacc => by
      rw [walkNode]
      exact walkList_wf ch _ _ (dictInsert_forall hacc rfl)

theorem walkList_wf : ∀ (l : List StateNode) (pr : String)
    (acc : List IdxEntry), (∀ e ∈ acc, e.2.1.ref = e.1) →
    ∀ e ∈ walkList l pr acc, e.2.1.ref = e.1
  | [], _, acc, hacc => by rw [walkList]; exact hacc
  | c :: cs, pr, acc, hacc => by
      rw [walkList]
      exact walkList_wf cs pr _ (walkNode_wf c pr acc hacc)

end

mutual

theorem walkNode_keys_nodup : ∀ (n : StateNode) (pr : String)
    (acc : List IdxEntry), (acc.map Prod.fst).Nodup →
    ((walkNode n pr acc).map Prod.fst).Nodup
  | .mk r ro nm vl ck ex di fo li ch, pr, acc, hacc => by
      rw [walkNode]
      exact walkList_keys_nodup ch _ _ (dictInsert_keys_nodup _ hacc)

theorem walkList_keys_nodup : ∀ (l : List StateNode) (pr : String)
    (acc : List IdxEntry), (acc.map Prod.fst).Nodup →
    ((walkList l pr acc).map Prod.fst).Nodup
  | [], _, acc, hacc => by rw [walkList]; exact hacc
  | c :: cs, pr, acc, hacc => by
      rw [walkList]
      exact walkList_keys_nodup cs pr _ (walkNode_keys_nodup c pr acc hacc)

end

mutual

theorem walkNode_keys : ∀ (n : StateNode) (pr : String)
    (acc : List IdxEntry), (acc.map Prod.fst ++ refsList n).Nodup →
    (walkNode n pr acc).map Prod.fst = acc.map Prod.fst ++ refsList n
  | .mk r ro nm vl ck ex di fo li ch, pr, acc, h => by
      rw [refsList] at h ⊢
      rw [walkNode]
      have hparts := List.nodup_append.mp h
      have hr : r ∉ acc.map Prod.fst := fun hin =>
        hparts.2.2 hin (List.mem_cons_self _ _)
      have hkeys := dictInsert_keys_of_not_mem
        (l := acc) (k := r) (StateNode.mk r ro nm vl ck ex di fo li ch, pr) hr
      have hnodup' : ((dictInsert acc r
          (StateNode.mk r ro nm vl ck ex di fo li ch, pr)).map Prod.fst ++
            refsListList ch).Nodup := by
        rw [hkeys, List.append_assoc]
        simpa using h
      rw [walkList_keys ch ro _ hnodup', hkeys, List.append_assoc]
      simp

theorem walkList_keys : ∀ (l : List StateNode) (pr : String)
    (acc : List IdxEntry), (acc.map Prod.fst ++ refsListList l).Nodup →
    (walkList l pr acc).map Prod.fst = acc.map Prod.fst ++ refsListList l
  | [], _, acc, _ => by
      rw [walkList, refsListList]
      simp
  | c :: cs, pr, acc, h => by
      rw [refsListList] at h ⊢
      rw [walkList]
      have h₁ : (acc.map Prod.fst ++ refsList c).Nodup := by
        rw [← List.append_assoc] at h
        exact h.of_append_left
      have hc := walkNode_keys c pr acc h₁
      have h₂ : ((walkNode c pr acc).map Prod.fst ++ refsListList cs).Nodup := by
        rw [hc, List.append_assoc]
        exact h
      rw [walkList_keys cs pr _ h₂, hc, List.append_assoc]

end

theorem idxFind_of_mem_nodup {l : List IdxEntry}
    (hnd : (l.map Prod.fst).Nodup) {e : IdxEntry} (he : e ∈ l) :
    idxFind l e.1 = some e.2 := by
  induction l with
  | nil => cases he
  | cons hd t ih =>
      obtain ⟨k', v'⟩ := hd
      rcases List.mem_cons.mp he with heq | hmem
      · subst heq
        simp [idxFind]
      · have hk : k' ≠ e.1 := by
          intro hk
          have : e.1 ∈ t.map Prod.fst :=
            List.mem_map.mpr ⟨e, hmem, rfl⟩
          rw [List.map_cons] at hnd
          exact (List.nodup_cons.mp hnd).1 (hk ▸ this)
        rw [List.map_cons] at hnd
        simp only [idxFind, if_neg hk]
        exact ih (List.nodup_cons.mp hnd).2 hmem

theorem compareProps_self (n : StateNode) : compareProps n n = [] := by
  simp [compareProps, comparedProps]

theorem diffStep_matched_mono (oldIdx : List IdxEntry) (st : DiffState)
    (e : IdxEntry) : st.matched ⊆ (diffStep oldIdx st e).matched := by
  rcases e with ⟨r, n, p⟩
  simp only [diffStep]
  split
  · split
    · exact fun x hx => List.mem_cons_of_mem _ hx
    · exact fun x hx => List.mem_cons_of_mem _ hx
  · split
    · split
      · exact fun x hx => List.mem_cons_of_mem _ hx
      · exact fun x hx => List.mem_cons_of_mem _ hx
    · exact fun x hx => hx

theorem foldl_diffStep_matched_mono (oldIdx : List IdxEntry)
    (entries : List IdxEntry) (st : DiffState) :
    st.matched ⊆ (entries.foldl (diffStep oldIdx) st).matched := by
  induction entries generalizing st with
  | nil => simp
  | cons e es ih =>
      rw [List.foldl_cons]
      exact (diffStep_matched_mono oldIdx st e).trans (ih _)

theorem foldl_diffStep_self (oldIdx : List IdxEntry) :
    ∀ (entries : List IdxEntry) (st : DiffState),
      (∀ e ∈ entries, idxFind oldIdx e.1 = some e.2) →
      (entries.foldl (diffStep oldIdx) st).added = st.added ∧
      (entries.foldl (diffStep oldIdx) st).changed = st.changed ∧
      ∀ e ∈ entries, e.1 ∈ (entries.foldl (diffStep oldIdx) st).matched := by
  intro entries
  induction entries with
  | nil => intro st h; exact ⟨rfl, rfl, by simp⟩
  | cons e es ih =>
      intro st h
      rcases e with ⟨r, n, p⟩
      have hfind : idxFind oldIdx r = some (n, p) :=
        h (r, n, p) (List.mem_cons_self _ _)
      have hstep : diffStep oldIdx st (r, n, p) =
          { st with matched := r :: st.matched } := by
        simp [diffStep, hfind, compareProps_self]
      rw [List.foldl_cons, hstep]
      obtain ⟨ha, hc, hm⟩ :=
        ih { st with matched := r :: st.matched }
          (fun e he => h e (List.mem_cons_of_mem _ he))
      refine ⟨ha, hc, ?_⟩
      intro e he
      rcases List.mem_cons.mp he with heq | hmem
      · subst heq
        exact foldl_diffStep_matched_mono oldIdx es _
          (List.mem_cons_self _ _)
      · exact hm e hmem

/-- Claim C7: diffing a tree against itself yields an empty diff with
`unchanged_count` equal to the number of nodes of the tree (refs being
unique within a tree, as the data model requires). -/
theorem diffTrees_self (t : StateNode) (step : Nat)
    (rt : RepresentationType) (h : (refsList t).Nodup) :
    (diffTrees t t step rt).added = [] ∧
    (diffTrees t t step rt).removed = [] ∧
    (diffTrees t t step rt).changed = [] ∧
    (diffTrees t t step rt).unchanged_count = nodeCount t := by
  have hnd : ((indexNodes t).map Prod.fst).Nodup := by
    rw [indexNodes]
    exact walkNode_keys_nodup t "" [] (by simp)
  have hself : ∀ e ∈ indexNodes t, idxFind (indexNodes t) e.1 = some e.2 :=
    fun e he => idxFind_of_mem_nodup hnd he
  obtain ⟨ha, hc, hm⟩ :=
    foldl_diffStep_self (indexNodes t) (indexNodes t) {} hself
  have hlen : (indexNodes t).length = nodeCount t := by
    have hkeys : (indexNodes t).map Prod.fst = refsList t := by
      rw [indexNodes]
      have := walkNode_keys t "" [] (by simpa using h)
      simpa using this
    calc (indexNodes t).length
        = ((indexNodes t).map Prod.fst).length := (List.length_map _ _).symm
      _ = (refsList t).length := by rw [hkeys]
      _ = nodeCount t := refsList_length t
  simp only [diffTrees]
  refine ⟨ha, ?_, hc, ?_⟩
  · have hfil : (indexNodes t).filter
        (fun e => decide (e.1 ∉ ((indexNodes t).foldl
          (diffStep (indexNodes t)) {}).matched)) = [] := by
      rw [List.filter_eq_nil_iff]
      intro e he
      simpa using hm e he
    rw [hfil]
    simp
  · rw [ha, hc]
    simp [hlen]

/-- Witness for claim C7 on a concrete two-node tree. -/
theorem diffTrees_self_witness :
    (refsList (.mk "@e1" "document" "" "" none none false false ""
      [.mk "@e2" "button" "Go" "" none none false false "" []])).Nodup ∧
    (diffTrees
      (.mk "@e1" "document" "" "" none none false false ""
        [.mk "@e2" "button" "Go" "" none none false false "" []])
      (.mk "@e1" "document" "" "" none none false false ""
        [.mk "@e2" "button" "Go" "" none none false false "" []])
      2 .A11Y_TREE).added = [] ∧
    (diffTrees
      (.mk "@e1" "document" "" "" none none false false ""
        [.mk "@e2" "button" "Go" "" none none false false "" []])
      (.mk "@e1" "document" "" "" none none false false ""
        [.mk "@e2" "button" "Go" "" none none false false "" []])
      2 .A11Y_TREE).unchanged_count =
      nodeCount (.mk "@e1" "document" "" "" none none false false ""
        [.mk "@e2" "button" "Go" "" none none false false "" []]) :=
  ⟨by decide,
   (diffTrees_self
     (.mk "@e1" "document" "" "" none none false false ""
       [.mk "@e2" "button" "Go" "" none none false false "" []])
     2 .A11Y_TREE (by decide)).1,
   (diffTrees_self
     (.mk "@e1" "document" "" "" none none false false ""
       [.mk "@e2" "button" "Go" "" none none false false "" []])
     2 .A11Y_TREE (by decide)).2.2.2⟩

/-- The "not-yet-matched old node with identical fingerprint" test of the
`diff_trees` fingerprint scan, as a Boolean predicate on index entries. -/
def fpUnmatched (role name parentRole : String) (matched : List String)
    (e : IdxEntry) : Bool :=
  e.1 ∉ matched ∧ e.2.1.role = role ∧ e.2.1.name = name ∧ e.2.2 = parentRole

theorem findByFingerprint_of_filter_singleton {role name parentRole : String}
    {matched : List String} {ro : String} {o : StateNode} {po : String} :
    ∀ {l : List IdxEntry},
      l.filter (fpUnmatched role name parentRole matched) = [(ro, o, po)] →
      findByFingerprint role name parentRole l matched = some (ro, o) := by
  intro l
  induction l with
  | nil => intro h; simp at h
  | cons hd t ih =>
      intro h
      obtain ⟨k, v, q⟩ := hd
      by_cases hp : fpUnmatched role name parentRole matched (k, v, q) = true
      · rw [List.filter_cons_of_pos hp] at h
        obtain ⟨heq, hrest⟩ := List.cons_eq_cons.mp h
        injection heq with hk hvq
        injection hvq with hv hq
        subst hk
        subst hv
        subst hq
        simp only [fpUnmatched, decide_eq_true_eq] at hp
        obtain ⟨hnm, hrole, hname, hpr⟩ := hp
        rw [findByFingerprint, if_neg hnm, if_pos ⟨hrole, hname, hpr⟩]
      · rw [List.filter_cons_of_neg (by simpa using hp)] at h
        simp only [fpUnmatched, decide_eq_true_eq] at hp
        push_neg at hp
        rw [findByFingerprint]
        by_cases hm : k ∈ matched
        · rw [if_pos hm]
          exact ih h
        · rw [if_neg hm]
          rw [if_neg ?_]
          · exact ih h
          · intro hfp
            exact absurd hfp.2.2 (hp hm hfp.1 hfp.2.1)

/-- Invariant carried through the `diff_trees` loop for claim C6:
no recorded added node and no recorded change (other than the one for the
fingerprint-matched new ref `r`) carries ref `r`. -/
def DiffInv (r : String) (x : List (String × PropVal × PropVal))
    (st : DiffState) : Prop :=
  (∀ m ∈ st.added, m.ref ≠ r) ∧
  (∀ c ∈ st.changed, c.ref = r → c.changed_props = x)

theorem diffStep_inv (oldIdx : List IdxEntry) {r : String}
    {x : List (String × PropVal × PropVal)} (st : DiffState) (e : IdxEntry)
    (hwf : e.2.1.ref = e.1) (hne : e.1 ≠ r) (h : DiffInv r x st) :
    DiffInv r x (diffStep oldIdx st e) := by
  rcases e with ⟨k, n, p⟩
  simp only at hwf hne
  simp only [diffStep]
  split
  · split
    · exact ⟨h.1, h.2⟩
    · refine ⟨h.1, ?_⟩
      intro c hc hcr
      rcases List.mem_append.mp hc with hc | hc
      · exact h.2 c hc hcr
      · rw [List.mem_singleton.mp hc] at hcr
        exact absurd hcr hne
  · split
    · split
      · exact ⟨h.1, h.2⟩
      · refine ⟨h.1, ?_⟩
        intro c hc hcr
        rcases List.mem_append.mp hc with hc | hc
        · exact h.2 c hc hcr
        · rw [List.mem_singleton.mp hc] at hcr
          exact absurd hcr hne
    · refine ⟨?_, h.2⟩
      intro m hm
      rcases List.mem_append.mp hm with hm | hm
      · exact h.1 m hm
      · rw [List.mem_singleton.mp hm, hwf]
        exact hne

theorem foldl_diffStep_inv (oldIdx : List IdxEntry) {r : String}
    {x : List (String × PropVal × PropVal)} (entries : List IdxEntry)
    (st : DiffState) (hent : ∀ e ∈ entries, e.2.1.ref = e.1 ∧ e.1 ≠ r)
    (h : DiffInv r x st) :
    DiffInv r x (entries.foldl (diffStep oldIdx) st) := by
  induction entries generalizing st with
  | nil => simpa using h
  | cons e es ih =>
      rw [List.foldl_cons]
      have he := hent e (List.mem_cons_self _ _)
      exact ih (diffStep oldIdx st e)
        (fun e' he' => hent e' (List.mem_cons_of_mem _ he'))
        (diffStep_inv oldIdx st e he.1 he.2 h)

theorem diffStep_fpBranch (oldIdx : List IdxEntry) (st : DiffState)
    {r : String} {n : StateNode} {p ro : String} {o : StateNode}
    (hnone : idxFind oldIdx r = none)
    (hfp : findByFingerprint n.role n.name p oldIdx st.matched =
      some (ro, o))
    (h : DiffInv r (compareProps o n) st) :
    DiffInv r (compareProps o n) (diffStep oldIdx st (r, n, p)) ∧
    ro ∈ (diffStep oldIdx st (r, n, p)).matched := by
  simp only [diffStep, hnone, hfp]
  cases hcp : compareProps o n with
  | nil =>
      rw [hcp] at h
      exact ⟨⟨h.1, h.2⟩, List.mem_cons_self _ _⟩
  | cons hd tl =>
      rw [hcp] at h
      refine ⟨⟨h.1, ?_⟩, List.mem_cons_self _ _⟩
      intro c hc hcr
      rcases List.mem_append.mp hc with hc | hc
      · exact h.2 c hc hcr
      · rw [List.mem_singleton.mp hc]

/-- Claim C6: if a new-tree node's ref does not occur in the old tree but
exactly one not-yet-matched old node carries the identical
`(role, name, parent_role)` fingerprint when the new node is processed,
`diff_trees` matches the two (any report about that new ref is a
`NodeChange` whose `changed_props` compares exactly those two nodes), and
the pair appears in neither `added` nor `removed`. -/
theorem diffTrees_fingerprint_match (oldRoot newRoot : StateNode)
    (step : Nat) (rt : RepresentationType) (pre post : List IdxEntry)
    (r : String) (n : StateNode) (p ro : String) (o : StateNode)
    (po : String)
    (hNew : indexNodes newRoot = pre ++ (r, n, p) :: post)
    (hnone : idxFind (indexNodes oldRoot) r = none)
    (hone : (indexNodes oldRoot).filter
        (fpUnmatched n.role n.name p
          (pre.foldl (diffStep (indexNodes oldRoot)) {}).matched) =
      [(ro, o, po)]) :
    n ∉ (diffTrees oldRoot newRoot step rt).added ∧
    o ∉ (diffTrees oldRoot newRoot step rt).removed ∧
    ∀ c ∈ (diffTrees oldRoot newRoot step rt).changed,
      c.ref = r → c.changed_props = compareProps o n := by
  have wfNew : ∀ e ∈ indexNodes newRoot, e.2.1.ref = e.1 := by
    rw [indexNodes]
    exact walkNode_wf newRoot "" [] (by simp)
  have wfOld : ∀ e ∈ indexNodes oldRoot, e.2.1.ref = e.1 := by
    rw [indexNodes]
    exact walkNode_wf oldRoot "" [] (by simp)
  have ndNew : ((indexNodes newRoot).map Prod.fst).Nodup := by
    rw [indexNodes]
    exact walkNode_keys_nodup newRoot "" [] (by simp)
  have hmemE : (r, n, p) ∈ indexNodes newRoot := by
    rw [hNew]
    exact List.mem_append_right _ (List.mem_cons_self _ _)
  have hnref : n.ref = r := wfNew _ hmemE
  have hkeys : ((pre.map Prod.fst) ++ r :: (post.map Prod.fst)).Nodup := by
    have hnd := hNew ▸ ndNew
    simpa [List.map_append] using hnd
  have hparts := List.nodup_append.mp hkeys
  have hrPre : r ∉ pre.map Prod.fst := fun hin =>
    hparts.2.2 hin (List.mem_cons_self _ _)
  have hrPost : r ∉ post.map Prod.fst := (List.nodup_cons.mp hparts.2.1).1
  have hentPre : ∀ e ∈ pre, e.2.1.ref = e.1 ∧ e.1 ≠ r := by
    intro e he
    refine ⟨wfNew e ?_, ?_⟩
    · rw [hNew]
      exact List.mem_append_left _ he
    · intro hk
      exact hrPre (hk ▸ List.mem_map.mpr ⟨e, he, rfl⟩)
  have hentPost : ∀ e ∈ post, e.2.1.ref = e.1 ∧ e.1 ≠ r := by
    intro e he
    refine ⟨wfNew e ?_, ?_⟩
    · rw [hNew]
      exact List.mem_append_right _ (List.mem_cons_of_mem _ he)
    · intro hk
      exact hrPost (hk ▸ List.mem_map.mpr ⟨e, he, rfl⟩)
  have hInvPre : DiffInv r (compareProps o n)
      (pre.foldl (diffStep (indexNodes oldRoot)) {}) :=
    foldl_diffStep_inv _ pre {} hentPre
      ⟨fun m hm => absurd hm (List.not_mem_nil m),
       fun c hc => absurd hc (List.not_mem_nil c)⟩
  have hfp := findByFingerprint_of_filter_singleton hone
  obtain ⟨hInvStep, hroStep⟩ :=
    diffStep_fpBranch (indexNodes oldRoot) _ hnone hfp hInvPre
  have hInvFinal :=
    foldl_diffStep_inv (indexNodes oldRoot) post _ hentPost hInvStep
  have hroFinal :=
    foldl_diffStep_matched_mono (indexNodes oldRoot) post _ hroStep
  have hmemO : (ro, o, po) ∈ indexNodes oldRoot := by
    have hm : (ro, o, po) ∈ (indexNodes oldRoot).filter
        (fpUnmatched n.role n.name p
          (pre.foldl (diffStep (indexNodes oldRoot)) {}).matched) := by
      rw [hone]
      exact List.mem_cons_self _ _
    exact (List.mem_filter.mp hm).1
  have horef : o.ref = ro := wfOld _ hmemO
  simp only [diffTrees]
  rw [hNew, List.foldl_append, List.foldl_cons]
  refine ⟨?_, ?_, ?_⟩
  · intro hin
    exact hInvFinal.1 n hin hnref
  · intro hin
    obtain ⟨e, hef, heo⟩ := List.mem_map.mp hin
    have hmem' := List.mem_filter.mp hef
    have hkey : e.1 = ro := by
      rw [← horef, ← heo]
      exact (wfOld e hmem'.1).symm
    have hnotm : e.1 ∉ (post.foldl (diffStep (indexNodes oldRoot))
        (diffStep (indexNodes oldRoot)
          (pre.foldl (diffStep (indexNodes oldRoot)) {})
          (r, n, p))).matched := by
      simpa using hmem'.2
    rw [hkey] at hnotm
    exact hnotm hroFinal
  · intro c hc
    exact hInvFinal.2 c hc

/-- Old tree of spec scenario S3: `document` root with a `button "Go"`
child stamped `@e2`. -/
def s3OldRoot : StateNode :=
  .mk "@e1" "document" "" "" none none false false ""
    [.mk "@e2" "button" "Go" "" none none false false "" []]

/-- New tree of spec scenario S3: the same button re-synthesised with ref
`@e99`. -/
def s3NewRoot : StateNode :=
  .mk "@e1" "document" "" "" none none false false ""
    [.mk "@e99" "button" "Go" "" none none false false "" []]

/-- Witness for claim C6 on scenario S3. -/
theorem diffTrees_fingerprint_match_witness :
    (indexNodes s3NewRoot = [("@e1", s3NewRoot, "")] ++
      ("@e99", .mk "@e99" "button" "Go" "" none none false false "" [],
        "document") :: []) ∧
    (idxFind (indexNodes s3OldRoot) "@e99" = none) ∧
    ((indexNodes s3OldRoot).filter
        (fpUnmatched "button" "Go" "document"
          ([("@e1", s3NewRoot, "")].foldl
            (diffStep (indexNodes s3OldRoot)) {}).matched) =
      [("@e2", .mk "@e2" "button" "Go" "" none none false false "" [],
        "document")]) ∧
    (.mk "@e99" "button" "Go" "" none none false false "" []) ∉
      (diffTrees s3OldRoot s3NewRoot 2 .A11Y_TREE).added ∧
    (.mk "@e2" "button" "Go" "" none none false false "" []) ∉
      (diffTrees s3OldRoot s3NewRoot 2 .A11Y_TREE).removed :=
  ⟨by decide, by decide, by decide,
   (diffTrees_fingerprint_match s3OldRoot s3NewRoot 2 .A11Y_TREE
     [("@e1", s3NewRoot, "")] [] "@e99"
     (.mk "@e99" "button" "Go" "" none none false false "" []) "document"
     "@e2" (.mk "@e2" "button" "Go" "" none none false false "" [])
     "document" (by decide) (by decide) (by decide)).1,
   (diffTrees_fingerprint_match s3OldRoot s3NewRoot 2 .A11Y_TREE
     [("@e1", s3NewRoot, "")] [] "@e99"
     (.mk "@e99" "button" "Go" "" none none false false "" []) "document"
     "@e2" (.mk "@e2" "button" "Go" "" none none false false "" [])
     "document" (by decide) (by decide) (by decide)).2.1⟩
